import Mathlib

/-
  Verification of the SITH R2-D2 repository (Syzygyx/R2-D2).

  The repository contains a browser web-simulator front end
  (sith/web_simulator/static/js/simulator.js), Playwright test drivers, and
  test harnesses that embed a Python mock API (SITHAPI) as string literals
  (test_pyodide_simple.js, test_pyodide_mock.js).  The Shadow/MarcDuino
  protocol core itself (tokenizer, classifier/decoder, dispatcher, sequence
  engine, configuration store) is described in the specification but has no
  implementation in the repository; where a claim depends on that missing
  core, the corresponding definition below is modelled from the spec and its
  doc comment says so.  All other definitions are shallow embeddings of the
  JavaScript / embedded-Python source.
-/

/-! ## Part 1: simulator.js embedding -/

/-- Visual state of one dome panel in the web simulator.  simulator.js keeps
it as the CSS class string, either the word open or the word closed
(setPanelState); we model it as a two-value type. -/
inductive PanelState where
  | opened
  | closed
deriving DecidableEq, Repr

/-- Parse a maximal run of leading decimal digits; none when there is no
leading digit (the NaN case of JS parseInt). -/
def parseDigits (s : List Char) : Option Nat :=
  let ds := s.takeWhile Char.isDigit
  if ds.isEmpty then none
  else some (ds.foldl (fun a c => 10 * a + (c.toNat - 48)) 0)

/-- JS parseInt as used by simulator.js on the panel-number substring: an
optional sign followed by a maximal run of decimal digits; none models NaN.
(Leading-whitespace trimming of parseInt is omitted: every call site passes
the substring directly following the three-character command mnemonic.) -/
def parseIntJS (s : List Char) : Option Int :=
  match s with
  | '-' :: rest => (parseDigits rest).map (fun n => -(n : Int))
  | '+' :: rest => (parseDigits rest).map (fun n => (n : Int))
  | _ => (parseDigits s).map (fun n => (n : Int))

/-- SITHSimulator.updatePanelsFromCommand (simulator.js lines 173-192):
a command starting with colon-OP opens, colon-CL closes; panel number 0
affects every panel, numbers 1..16 affect the single indexed panel
(setPanelState is inlined as the state value itself), anything else
(including NaN) leaves the panels unchanged. -/
def updatePanelsFromCommand (command : List Char) (panels : List PanelState) :
    List PanelState :=
  if command.take 3 = [':', 'O', 'P'] then
    match parseIntJS (command.drop 3) with
    | some panelNum =>
        if panelNum = 0 then panels.map (fun _ => PanelState.opened)
        else if 1 ≤ panelNum ∧ panelNum ≤ 16 then
          panels.set (panelNum.toNat - 1) PanelState.opened
        else panels
    | none => panels
  else if command.take 3 = [':', 'C', 'L'] then
    match parseIntJS (command.drop 3) with
    | some panelNum =>
        if panelNum = 0 then panels.map (fun _ => PanelState.closed)
        else if 1 ≤ panelNum ∧ panelNum ≤ 16 then
          panels.set (panelNum.toNat - 1) PanelState.closed
        else panels
    | none => panels
  else panels

/-! ## Part 2: embedded Python SITHAPI (test_pyodide_simple.js), simulation
mode (HAS_REQUESTS is false, session is None) -/

/-- Value stored under the panels key of a SITHAPI result dictionary: the
Python code returns a string there from get_status and a list of booleans
from get_panels. -/
inductive PanelsVal where
  | strVal (s : List Char)
  | listVal (l : List Bool)
deriving DecidableEq, Repr

/-- Result dictionary returned by the embedded Python SITHAPI methods; every
field but success is optional, mirroring the heterogeneous Python dicts. -/
structure ApiResult where
  success : Bool
  message : Option (List Char) := none
  error : Option (List Char) := none
  status : Option (List Char) := none
  panels : Option PanelsVal := none
deriving DecidableEq, Repr

/-- Python format f-string 02d for a non-negative number: decimal digits,
zero-padded on the left to width two. -/
def format02d (n : Nat) : List Char :=
  (if n < 10 then ['0'] else []) ++ Nat.toDigits 10 n

/-- SITHAPI.send_command in simulation mode: prints and returns a success
dictionary with the message Simulated-colon-command; the second component
records the frame issued toward the transport, for reasoning about which
commands a call emits. -/
def send_command (command : List Char) : ApiResult × List (List Char) :=
  ({ success := true,
     message := some ("Simulated: ".toList ++ command) }, [command])

/-- SITHAPI.open_panel: when 1 <= panel_num <= 16 sends the frame colon-OP
followed by the two-digit zero-padded number, otherwise returns the soft
failure dictionary and issues no command. -/
def open_panel (panel_num : Int) : ApiResult × List (List Char) :=
  if 1 ≤ panel_num ∧ panel_num ≤ 16 then
    send_command ([':', 'O', 'P'] ++ format02d panel_num.toNat)
  else
    ({ success := false,
       error := some ("Panel number must be 1-16".toList) }, [])

/-- SITHAPI.close_panel: as open_panel but with the CL mnemonic. -/
def close_panel (panel_num : Int) : ApiResult × List (List Char) :=
  if 1 ≤ panel_num ∧ panel_num ≤ 16 then
    send_command ([':', 'C', 'L'] ++ format02d panel_num.toNat)
  else
    ({ success := false,
       error := some ("Panel number must be 1-16".toList) }, [])

/-- SITHAPI.open_all_panels: sends the frame colon-OP00. -/
def open_all_panels : ApiResult × List (List Char) :=
  send_command [':', 'O', 'P', '0', '0']

/-- SITHAPI.close_all_panels: sends the frame colon-CL00. -/
def close_all_panels : ApiResult × List (List Char) :=
  send_command [':', 'C', 'L', '0', '0']

/-- SITHAPI.run_sequence: sends the frame colon-SE followed by the sequence
name as formatted into the f-string. -/
def run_sequence (sequence_name : List Char) : ApiResult × List (List Char) :=
  send_command ([':', 'S', 'E'] ++ sequence_name)

/-- SITHAPI.get_status in simulation mode: a constant dictionary with status
simulation_mode and panels all_closed; it reads no mutable state. -/
def get_status : ApiResult :=
  { success := true,
    status := some ("simulation_mode".toList),
    panels := some (PanelsVal.strVal ("all_closed".toList)) }

/-- SITHAPI.get_panels in simulation mode: a constant dictionary whose panels
entry is the Python list False times 16; it reads no mutable state. -/
def get_panels : ApiResult :=
  { success := true,
    panels := some (PanelsVal.listVal (List.replicate 16 false)) }

/-! ## Part 3: wire protocol decoder and encoder

The Command Classifier & Decoder and the frame encoder are described in the
specification (section 4.2 and section 6) but have no implementation in the
repository; the definitions in this part are modelled from the spec.  The
Panel and I2C families, whose grammar the spec fixes precisely, are decoded
into structured commands; the HoloProjector, Display, Sound, Setup and the
two alias families, whose opcode bodies the spec leaves unspecified beyond
the start character, are kept as family-classified raw bodies. -/

/-- Modelled from the spec: the command family of a decoded Command
(data-model section 3). -/
inductive Family where
  | panel
  | holoProjector
  | display
  | sound
  | setup
  | i2c
  | altSound
  | altHP
deriving DecidableEq, Repr

/-- Modelled from the spec: decode-time error taxonomy (section 7). -/
inductive DecodeError where
  | malformedCommand
  | unknownOpcode
  | argumentError
deriving DecidableEq, Repr

/-- Modelled from the spec: the six Panel-family opcodes (section 4.2). -/
inductive PanelOp where
  | SE
  | OP
  | CL
  | RC
  | ST
  | HD
deriving DecidableEq, Repr

/-- Modelled from the spec: a Panel-family target; target 00 decodes to the
distinguished all value, never the literal integer 0, and the SE opcode also
accepts an alphanumeric sequence name. -/
inductive PanelTarget where
  | all
  | num (n : Nat)
  | name (s : List Char)
deriving DecidableEq, Repr

/-- Modelled from the spec: one typed I2C argument (section 4.2): decimal,
hex with x prefix, single-quoted character, or double-quoted string. -/
inductive I2CArg where
  | decArg (n : Nat)
  | hexArg (n : Nat)
  | charArg (c : Char)
  | strArg (s : List Char)
deriving DecidableEq, Repr

/-- Modelled from the spec: a decoded Command; structured for the Panel and
I2C families, raw body for the families whose grammar the spec leaves
unspecified. -/
inductive Command where
  | panelCmd (op : PanelOp) (target : PanelTarget)
  | i2cCmd (address : Nat) (args : List I2CArg)
  | rawCmd (family : Family) (body : List Char)
deriving DecidableEq, Repr

/-- Family of a decoded Command. -/
def Command.family : Command → Family
  | .panelCmd _ _ => .panel
  | .i2cCmd _ _ => .i2c
  | .rawCmd fam _ => fam

/-- Decimal digit value of a character, none for a non-digit. -/
def digitVal? (c : Char) : Option Nat :=
  if c = '0' then some 0
  else if c = '1' then some 1
  else if c = '2' then some 2
  else if c = '3' then some 3
  else if c = '4' then some 4
  else if c = '5' then some 5
  else if c = '6' then some 6
  else if c = '7' then some 7
  else if c = '8' then some 8
  else if c = '9' then some 9
  else none

/-- Character of a decimal digit value (values above 9 never occur). -/
def digitChar (v : Nat) : Char :=
  if v = 0 then '0'
  else if v = 1 then '1'
  else if v = 2 then '2'
  else if v = 3 then '3'
  else if v = 4 then '4'
  else if v = 5 then '5'
  else if v = 6 then '6'
  else if v = 7 then '7'
  else if v = 8 then '8'
  else if v = 9 then '9'
  else '?'

/-- Hex digit value of a character, either case, none for a non-hex-digit. -/
def hexVal? (c : Char) : Option Nat :=
  if c = 'a' ∨ c = 'A' then some 10
  else if c = 'b' ∨ c = 'B' then some 11
  else if c = 'c' ∨ c = 'C' then some 12
  else if c = 'd' ∨ c = 'D' then some 13
  else if c = 'e' ∨ c = 'E' then some 14
  else if c = 'f' ∨ c = 'F' then some 15
  else digitVal? c

/-- Canonical (lower-case) character of a hex digit value. -/
def hexDigitChar (v : Nat) : Char :=
  if v = 10 then 'a'
  else if v = 11 then 'b'
  else if v = 12 then 'c'
  else if v = 13 then 'd'
  else if v = 14 then 'e'
  else if v = 15 then 'f'
  else digitChar v

/-- Accumulating decimal evaluator over a digit list; none on a non-digit. -/
def decValAux (acc : Nat) : List Char → Option Nat
  | [] => some acc
  | c :: cs =>
    match digitVal? c with
    | some v => decValAux (10 * acc + v) cs
    | none => none

/-- Parse a non-empty all-digit list as a decimal number. -/
def parseDecimal (s : List Char) : Option Nat :=
  match s with
  | [] => none
  | _ :: _ => decValAux 0 s

/-- Accumulating hex evaluator over a hex-digit list; none on a
non-hex-digit. -/
def hexValAux (acc : Nat) : List Char → Option Nat
  | [] => some acc
  | c :: cs =>
    match hexVal? c with
    | some v => hexValAux (16 * acc + v) cs
    | none => none

/-- Parse a non-empty all-hex-digit list as a hex number; both cases of a
letter digit are accepted and yield the same value (type normalization). -/
def parseHex (s : List Char) : Option Nat :=
  match s with
  | [] => none
  | _ :: _ => hexValAux 0 s

/-- Fuel-driven digit emitter in a given base (structural recursion so that
terms reduce definitionally); with fuel above the number it emits the
canonical most-significant-first digit string. -/
def digitsCore (base : Nat) (dc : Nat → Char) (fuel n : Nat) : List Char :=
  match fuel with
  | 0 => []
  | fuel + 1 =>
    if n < base then [dc n]
    else digitsCore base dc fuel (n / base) ++ [dc (n % base)]

/-- Canonical decimal digit string of a number (no leading zeros). -/
def decDigits (n : Nat) : List Char :=
  digitsCore 10 digitChar (n + 1) n

/-- Canonical hex digit string of a number (lower case, no leading zeros). -/
def hexDigits (n : Nat) : List Char :=
  digitsCore 16 hexDigitChar (n + 1) n

instance {ε α : Type} [DecidableEq ε] [DecidableEq α] :
    DecidableEq (Except ε α) := fun x y =>
  match x, y with
  | .ok a, .ok b =>
    if h : a = b then isTrue (by rw [h])
    else isFalse (by intro he; cases he; exact h rfl)
  | .error a, .error b =>
    if h : a = b then isTrue (by rw [h])
    else isFalse (by intro he; cases he; exact h rfl)
  | .ok _, .error _ => isFalse (by intro he; cases he)
  | .error _, .ok _ => isFalse (by intro he; cases he)

/-- Split a body on commas; a list of k commas yields k+1 segments, so the
result is never empty and no segment contains a comma. -/
def splitCommas : List Char → List (List Char)
  | [] => [[]]
  | c :: rest =>
    if c = ',' then [] :: splitCommas rest
    else
      match splitCommas rest with
      | seg :: segs => (c :: seg) :: segs
      | [] => [[c]]

/-- Option-valued traversal of a list; none as soon as one element maps to
none (a malformed I2C argument fails the whole command). -/
def mapMOpt (f : α → Option β) : List α → Option (List β)
  | [] => some []
  | a :: as =>
    match f a, mapMOpt f as with
    | some b, some bs => some (b :: bs)
    | _, _ => none

/-- Modelled from the spec: classify and decode one I2C argument segment:
x prefix for hex, single quotes for a character, double quotes for a string,
otherwise decimal; anything else is malformed. -/
def decodeArg (s : List Char) : Option I2CArg :=
  match s with
  | [] => none
  | c :: rest =>
    if c = 'x' then (parseHex rest).map I2CArg.hexArg
    else if c = '\'' then
      match rest with
      | [ch, q] => if q = '\'' then some (I2CArg.charArg ch) else none
      | _ => none
    else if c = '"' then
      match rest.reverse with
      | q :: midRev =>
        if q = '"' ∧ '"' ∉ midRev then some (I2CArg.strArg midRev.reverse)
        else none
      | [] => none
    else (parseDecimal s).map I2CArg.decArg

/-- Modelled from the spec: decode an I2C body, a decimal address followed by
comma-separated typed arguments; a malformed address or argument fails the
whole command with ArgumentError (no partial application). -/
def decodeI2C (body : List Char) : Except DecodeError Command :=
  match splitCommas body with
  | [] => .error .argumentError
  | addrSeg :: argSegs =>
    match parseDecimal addrSeg with
    | none => .error .argumentError
    | some a =>
      match mapMOpt decodeArg argSegs with
      | none => .error .argumentError
      | some args => .ok (.i2cCmd a args)

/-- The two mnemonic characters of a Panel opcode. -/
def panelOpChars : PanelOp → List Char
  | .SE => ['S', 'E']
  | .OP => ['O', 'P']
  | .CL => ['C', 'L']
  | .RC => ['R', 'C']
  | .ST => ['S', 'T']
  | .HD => ['H', 'D']

/-- Recognize a two-character Panel opcode mnemonic. -/
def panelOpOfChars (a b : Char) : Option PanelOp :=
  if a = 'S' ∧ b = 'E' then some PanelOp.SE
  else if a = 'O' ∧ b = 'P' then some PanelOp.OP
  else if a = 'C' ∧ b = 'L' then some PanelOp.CL
  else if a = 'R' ∧ b = 'C' then some PanelOp.RC
  else if a = 'S' ∧ b = 'T' then some PanelOp.ST
  else if a = 'H' ∧ b = 'D' then some PanelOp.HD
  else none

/-- Modelled from the spec: the SE opcode additionally accepts a non-empty
alphanumeric sequence name instead of a numeric id; for every other opcode a
non-two-digit remainder is an ArgumentError. -/
def seqNameFallback (op : PanelOp) (rest : List Char) : Except DecodeError Command :=
  if op = PanelOp.SE ∧ rest ≠ [] ∧ rest.all Char.isAlphanum then
    .ok (.panelCmd PanelOp.SE (.name rest))
  else .error .argumentError

/-- Modelled from the spec: decode a Panel body: two opcode characters, then
a two-digit target 00 to 16 where 00 decodes to the distinguished all target
(never the literal actuator 0); a two-digit value above 16 is an
ArgumentError; a remainder that is not exactly two digits falls back to the
SE sequence-name rule. -/
def decodePanel (body : List Char) : Except DecodeError Command :=
  match body with
  | a :: b :: rest =>
    match panelOpOfChars a b with
    | some op =>
      match rest with
      | [d1, d2] =>
        match digitVal? d1, digitVal? d2 with
        | some v1, some v2 =>
          if 10 * v1 + v2 = 0 then .ok (.panelCmd op PanelTarget.all)
          else if 10 * v1 + v2 ≤ 16 then .ok (.panelCmd op (.num (10 * v1 + v2)))
          else .error .argumentError
        | _, _ => seqNameFallback op rest
      | _ => seqNameFallback op rest
    | none => .error .unknownOpcode
  | _ => .error .unknownOpcode

/-- Modelled from the spec: map a frame (terminator already stripped) to a
decoded Command by its start character; an unknown start character is a
MalformedCommand. -/
def decode (f : List Char) : Except DecodeError Command :=
  match f with
  | [] => .error .malformedCommand
  | c :: body =>
    if c = ':' then decodePanel body
    else if c = '&' then decodeI2C body
    else if c = '*' then .ok (.rawCmd Family.holoProjector body)
    else if c = '@' then .ok (.rawCmd Family.display body)
    else if c = '$' then .ok (.rawCmd Family.sound body)
    else if c = '#' then .ok (.rawCmd Family.setup body)
    else if c = '!' then .ok (.rawCmd Family.altSound body)
    else if c = '%' then .ok (.rawCmd Family.altHP body)
    else .error .malformedCommand

/-- Start character of each family (section 6 frame grammar; an alias family
keeps its own start character). -/
def startCharOf : Family → Char
  | .panel => ':'
  | .holoProjector => '*'
  | .display => '@'
  | .sound => '$'
  | .setup => '#'
  | .i2c => '&'
  | .altSound => '!'
  | .altHP => '%'

/-- Encode a Panel target back to frame form: all as 00, a numeric target as
two zero-padded digits, a sequence name verbatim. -/
def encodeTarget : PanelTarget → List Char
  | .all => ['0', '0']
  | .num v => [digitChar (v / 10), digitChar (v % 10)]
  | .name s => s

/-- Encode one I2C argument in canonical form: decimal digits, x plus
lower-case hex digits, quoted character, quoted string. -/
def encodeArg : I2CArg → List Char
  | .decArg n => decDigits n
  | .hexArg n => 'x' :: hexDigits n
  | .charArg c => ['\'', c, '\'']
  | .strArg s => '"' :: (s ++ ['"'])

/-- Comma-prefixed concatenation of encoded I2C arguments. -/
def encodeArgsTail (args : List I2CArg) : List Char :=
  args.foldr (fun g acc => ',' :: (encodeArg g ++ acc)) []

/-- Modelled from the spec: encode a decoded Command back to frame form
(terminator not included). -/
def encode : Command → List Char
  | .panelCmd op t => ':' :: (panelOpChars op ++ encodeTarget t)
  | .i2cCmd a args => '&' :: (decDigits a ++ encodeArgsTail args)
  | .rawCmd fam body => startCharOf fam :: body

/-! ## Part 4: sequence data (simulator.js) and logging -/

/-- One scheduled step of a sequence (the JSON shape posted by simulator.js:
time in milliseconds, one pulse value per servo channel, a label). -/
structure SequenceStep where
  time_ms : Nat
  servo_positions : List Nat
  description : List Char
deriving DecidableEq, Repr

/-- A named sequence: the JSON shape of loadWaveSequence and
loadScreamSequence in simulator.js. -/
structure Sequence where
  name : List Char
  description : List Char
  steps : List SequenceStep
deriving DecidableEq, Repr

/-- OPEN position sentinel: simulator.js updatePanelsFromSequence renders
pulse value 1000 as an open panel. -/
def OPEN_POS : Nat := 1000

/-- CLOSED position sentinel: simulator.js updatePanelsFromSequence renders
pulse value 2000 as a closed panel. -/
def CLOSED_POS : Nat := 2000

/-- Modelled from the spec: MID sentinel; its numeric value is not given in
the repository, modelled as the midpoint pulse. -/
def MID_POS : Nat := 1500

/-- Modelled from the spec: the no-op / power-off sentinel (leave the
actuator unchanged); its numeric value is not given in the repository,
modelled as pulse 0. -/
def NO_PULSE : Nat := 0

/-- The wave sequence data of SITHSimulator.loadWaveSequence (simulator.js
lines 215-254), verbatim. -/
def waveSequence : Sequence :=
  { name := "R2-D2 Wave".toList,
    description := "Classic wave sequence".toList,
    steps :=
      [ { time_ms := 200,
          servo_positions :=
            [2000, 2000, 2000, 2000, 2000, 2000, 2000, 2000, 2000, 2000, 2000, 2000],
          description := "Close all panels".toList },
        { time_ms := 300,
          servo_positions :=
            [1000, 2000, 2000, 2000, 2000, 2000, 2000, 2000, 2000, 2000, 2000, 2000],
          description := "Open panel 1".toList },
        { time_ms := 300,
          servo_positions :=
            [2000, 1000, 2000, 2000, 2000, 2000, 2000, 2000, 2000, 2000, 2000, 2000],
          description := "Open panel 2".toList },
        { time_ms := 300,
          servo_positions :=
            [2000, 2000, 1000, 2000, 2000, 2000, 2000, 2000, 2000, 2000, 2000, 2000],
          description := "Open panel 3".toList },
        { time_ms := 300,
          servo_positions :=
            [2000, 2000, 2000, 1000, 2000, 2000, 2000, 2000, 2000, 2000, 2000, 2000],
          description := "Open panel 4".toList },
        { time_ms := 600,
          servo_positions :=
            [2000, 2000, 2000, 2000, 2000, 2000, 2000, 2000, 2000, 2000, 2000, 2000],
          description := "Close all panels".toList } ] }

/-- The scream sequence data of SITHSimulator.loadScreamSequence
(simulator.js lines 256-280), verbatim. -/
def screamSequence : Sequence :=
  { name := "R2-D2 Scream".toList,
    description := "Scream sequence with all panels".toList,
    steps :=
      [ { time_ms := 200,
          servo_positions :=
            [2000, 2000, 2000, 2000, 2000, 2000, 2000, 2000, 2000, 2000, 2000, 2000],
          description := "Close all panels".toList },
        { time_ms := 1000,
          servo_positions :=
            [1000, 1000, 1000, 1000, 1000, 1000, 1000, 1000, 1000, 1000, 1000, 1000],
          description := "SCREAM! Open all panels".toList },
        { time_ms := 1500,
          servo_positions :=
            [2000, 2000, 2000, 2000, 2000, 2000, 2000, 2000, 2000, 2000, 2000, 2000],
          description := "Close all panels".toList } ] }

/-- SITHSimulator.updatePanelsFromSequence (simulator.js lines 411-423):
walk the servo positions with their index; for an index inside the panel
list, pulse 1000 opens and pulse 2000 closes that panel, any other value
leaves it as it was. -/
def updatePanelsFromSequence (servoPositions : List Nat)
    (panels : List PanelState) : List PanelState :=
  servoPositions.enum.foldl
    (fun ps ip =>
      if ip.1 < ps.length then
        if ip.2 = 1000 then ps.set ip.1 PanelState.opened
        else if ip.2 = 2000 then ps.set ip.1 PanelState.closed
        else ps
      else ps)
    panels

/-- The trailing while loop of SITHSimulator.addLogEntry: while more than
100 entries remain, remove the first (oldest) one. -/
def trimLog : List α → List α
  | [] => []
  | x :: xs => if (x :: xs).length > 100 then trimLog xs else x :: xs

/-- SITHSimulator.addLogEntry (simulator.js lines 425-438) on the logical
log state: append the new entry at the end, then trim from the front down to
at most 100 entries. -/
def addLogEntry (log : List α) (entry : α) : List α :=
  trimLog (log ++ [entry])

/-! ## Part 5: tokenizer, dispatcher and sequence engine

These components are described in the specification (sections 4.1, 4.3, 4.4)
but have no implementation in the repository; the definitions below are
modelled from the spec. -/

/-- Modelled from the spec: tokenizer error (section 4.1). -/
inductive TokError where
  | frameTooLong
deriving DecidableEq, Repr

/-- Modelled from the spec (section 4.1): split the byte stream at carriage
returns; a frame longer than the 32-byte maximum is reported as FrameTooLong
and tokenization resumes at the next terminator; the unterminated tail stays
buffered (second component). -/
def tokenizeAux (buf : List Char) : List Char → List (Except TokError (List Char)) × List Char
  | [] => ([], buf)
  | c :: rest =>
    if c = '\r' then
      let r := tokenizeAux [] rest
      ((if buf.length ≤ 32 then .ok buf else .error .frameTooLong) :: r.1, r.2)
    else tokenizeAux (buf ++ [c]) rest

/-- Tokenize a byte stream starting from an empty buffer. -/
def tokenize (input : List Char) : List (Except TokError (List Char)) × List Char :=
  tokenizeAux [] input

/-- Modelled from the spec: a HAL capability call of the servos surface
(section 6): set_position(channel, pulse) or release(channel). -/
inductive HALCall where
  | setPosition (channel : Nat) (pulse : Nat)
  | releaseChannel (channel : Nat)
deriving DecidableEq, Repr

/-- Modelled from the spec: what the Dispatcher does with one decoded
Command: a direct HAL call, a Sequence Engine start by id or name, or a
route (I2C write, setup mutation, raw-body family forwarding, panel
stop/hold) whose exact HAL mapping the spec leaves to the backend and which
no claim depends on. -/
inductive DispatchAction where
  | hal (call : HALCall)
  | seqStartId (id : Nat)
  | seqStartName (nm : List Char)
  | otherRoute (c : Command)
deriving DecidableEq, Repr

/-- Modelled from the spec (sections 4.3 and 8): route a decoded Command.
An OP or CL panel command becomes servos.set_position with the OPEN or the
CLOSED sentinel, target all fanning out over the sixteen panel channels in
order; RC releases the servo; SE starts a sequence by id or name, the
two-digit 00 target being builtin sequence id 0; everything else takes its
own route. -/
def dispatch : Command → List DispatchAction
  | .panelCmd .OP (.num t) => [.hal (.setPosition t OPEN_POS)]
  | .panelCmd .OP .all =>
      (List.range 16).map (fun i => .hal (.setPosition (i + 1) OPEN_POS))
  | .panelCmd .CL (.num t) => [.hal (.setPosition t CLOSED_POS)]
  | .panelCmd .CL .all =>
      (List.range 16).map (fun i => .hal (.setPosition (i + 1) CLOSED_POS))
  | .panelCmd .RC (.num t) => [.hal (.releaseChannel t)]
  | .panelCmd .RC .all =>
      (List.range 16).map (fun i => .hal (.releaseChannel (i + 1)))
  | .panelCmd .SE (.num i) => [.seqStartId i]
  | .panelCmd .SE .all => [.seqStartId 0]
  | .panelCmd .SE (.name s) => [.seqStartName s]
  | c => [.otherRoute c]

/-- Modelled from the spec: full inbound path (section 2 data flow): bytes
through the Tokenizer, each complete frame through the Decoder, each decoded
Command through the Dispatcher; decode-time errors discard the frame and
processing continues with the next frame. -/
def processBytes (input : List Char) : List DispatchAction :=
  ((tokenize input).1.filterMap
    (fun fr =>
      match fr with
      | .ok f =>
        match decode f with
        | .ok c => some (dispatch c)
        | .error _ => none
      | .error _ => none)).flatten

/-- Modelled from the spec: the builtin sequence catalogue maps id 2 to the
Wave sequence (section 6); the repository carries step data only for the
Wave and Scream sequences, so catalogue entries whose step data the
repository does not define are left out of the model. -/
def builtinSequences : Nat → Option Sequence :=
  fun id => if id = 2 then some waveSequence else none

/-- Modelled from the spec: runtime state of one SequenceRun
(section 4.4). -/
inductive RunState where
  | idle
  | running
  | paused
  | completed
  | stopped
deriving DecidableEq, Repr

/-- Modelled from the spec: the mutable runtime state of one in-progress
playback; runId is the engine-assigned identity of this run, used to
attribute HAL calls and notifications. -/
structure SeqRun where
  runId : Nat
  seqId : Nat
  currentStepIndex : Nat
  state : RunState
deriving DecidableEq, Repr

/-- Modelled from the spec: reason carried by a completion notification. -/
inductive CompletionReason where
  | finished
  | superseded
deriving DecidableEq, Repr

/-- Modelled from the spec: a completion notification for a run. -/
inductive SeqNotification where
  | completion (runId : Nat) (reason : CompletionReason)
deriving DecidableEq, Repr

/-- Run id a notification is about. -/
def SeqNotification.forRun : SeqNotification → Nat
  | .completion rid _ => rid

/-- Modelled from the spec: the Sequence Engine state: the id-indexed
sequence table, a fresh-run-id counter, and the at-most-one active run. -/
structure EngineState where
  seqTable : Nat → Option Sequence
  nextRunId : Nat
  active : Option SeqRun

/-- A HAL call tagged with the run that issued it. -/
structure TaggedCall where
  runId : Nat
  call : HALCall
deriving DecidableEq, Repr

/-- Modelled from the spec (section 4.4): start a sequence by id: the id is
looked up first (an unknown id is rejected without touching the active run);
if another run is active (Running or Paused) it is stopped first and exactly
one completion notification with reason Superseded is emitted for it; the
new run then begins at step 0, Running, under a fresh run id. -/
def startSequence (seqId : Nat) (s : EngineState) :
    EngineState × List SeqNotification :=
  match s.seqTable seqId with
  | none => (s, [])
  | some _ =>
    match s.active with
    | some r =>
      if r.state = RunState.running ∨ r.state = RunState.paused then
        ({ s with nextRunId := s.nextRunId + 1,
                  active := some ⟨s.nextRunId, seqId, 0, RunState.running⟩ },
         [.completion r.runId .superseded])
      else
        ({ s with nextRunId := s.nextRunId + 1,
                  active := some ⟨s.nextRunId, seqId, 0, RunState.running⟩ }, [])
    | none =>
      ({ s with nextRunId := s.nextRunId + 1,
                active := some ⟨s.nextRunId, seqId, 0, RunState.running⟩ }, [])

/-- Modelled from the spec (section 4.4): the HAL calls of one step, one
set_position per actuator in list order, skipping the no-op sentinel;
channels are 1-based. -/
def stepCalls (rid : Nat) (step : SequenceStep) : List TaggedCall :=
  step.servo_positions.enum.filterMap
    (fun p =>
      if p.2 = NO_PULSE then none
      else some ⟨rid, HALCall.setPosition (p.1 + 1) p.2⟩)

/-- Modelled from the spec (section 4.4): one scheduling tick: a Running run
applies its current step and advances, or transitions to Completed (with a
completion notification, reason finished) once past the last step; the
per-step virtual-clock offsets are abstracted to one step per tick, which
preserves order-of-emission properties. -/
def engineTick (s : EngineState) :
    EngineState × List TaggedCall × List SeqNotification :=
  match s.active with
  | none => (s, [], [])
  | some r =>
    if r.state = RunState.running then
      match s.seqTable r.seqId with
      | none => ({ s with active := some { r with state := RunState.stopped } }, [], [])
      | some sq =>
        match sq.steps.get? r.currentStepIndex with
        | some step =>
          ({ s with active := some { r with currentStepIndex := r.currentStepIndex + 1 } },
           stepCalls r.runId step, [])
        | none =>
          ({ s with active := some { r with state := RunState.completed } },
           [], [.completion r.runId .finished])
    else (s, [], [])

/-- Iterate the engine tick, accumulating HAL calls and notifications in
emission order. -/
def engineTicks : Nat → EngineState →
    EngineState × List TaggedCall × List SeqNotification
  | 0, s => (s, [], [])
  | n + 1, s =>
    let r1 := engineTick s
    let r2 := engineTicks n r1.1
    (r2.1, r1.2.1 ++ r2.2.1, r1.2.2 ++ r2.2.2)

/-- Modelled from the spec (section 3, SequenceStep invariant): one actuator
position value is admissible when it lies in the physical pulse range
[500, 2500] or equals one of the OPEN/CLOSED/MID/NO-PULSE sentinels. -/
def posOk (p : Nat) : Bool :=
  decide ((500 ≤ p ∧ p ≤ 2500) ∨ p = OPEN_POS ∨ p = CLOSED_POS ∨ p = MID_POS ∨ p = NO_PULSE)

/-- Every position of every step of a sequence is admissible. -/
def seqOk (sq : Sequence) : Bool :=
  sq.steps.all (fun st => st.servo_positions.all posOk)

/-- Modelled from the spec (sections 3 and 4.4): dynamic registration of a
user-supplied sequence under a name; the SequenceStep invariant is validated
at registration, an invalid sequence is rejected (false) and the catalogue
is unchanged. -/
def registerSequence (cat : List (List Char × Sequence)) (nm : List Char)
    (sq : Sequence) : List (List Char × Sequence) × Bool :=
  if seqOk sq then ((nm, sq) :: cat, true) else (cat, false)

/-- Register a list of name-sequence pairs, starting from the empty
registered catalogue. -/
def registerAll (regs : List (List Char × Sequence)) : List (List Char × Sequence) :=
  regs.foldl (fun cat r => (registerSequence cat r.1 r.2).1) []

/-- A sequence the engine can play: a builtin catalogue entry or a
registered one. -/
def playable (registered : List (List Char × Sequence)) (sq : Sequence) : Prop :=
  (∃ id, builtinSequences id = some sq) ∨ (∃ nm, (nm, sq) ∈ registered)

/-! ## Part 6: configuration store

The Configuration Store is described in the specification (sections 3 and
4.5) but has no implementation in the repository; the definitions below are
modelled from the spec. -/

/-- Modelled from the spec: the persisted settings fields (section 3);
servo_directions is the direction bitmask, the mode and module fields are
small enumerations kept as numbers. -/
structure ConfigFields where
  servo_directions : Nat
  startup_sound_mode : Nat
  quiet_mode : Bool
  slave_delay_ms : Nat
  active_sound_module : Nat
deriving DecidableEq, Repr

/-- Modelled from the spec: checksum recomputed over the recognized fields;
the spec fixes no algorithm, modelled as the byte sum of the field values. -/
def computeChecksum (f : ConfigFields) : Nat :=
  (f.servo_directions + f.startup_sound_mode + (if f.quiet_mode then 1 else 0)
    + f.slave_delay_ms + f.active_sound_module) % 256

/-- Modelled from the spec: the persisted bytes: fields plus the stored
checksum. -/
structure PersistedConfig where
  fields : ConfigFields
  checksum : Nat
deriving DecidableEq, Repr

/-- Modelled from the spec: the compiled-in defaults; the spec names the
fields but fixes no numeric values, modelled as the zero/false values. -/
def defaultConfig : ConfigFields :=
  { servo_directions := 0,
    startup_sound_mode := 0,
    quiet_mode := false,
    slave_delay_ms := 0,
    active_sound_module := 0 }

/-- Modelled from the spec: the in-memory store: current fields and the
dirty flag forcing a fresh write on first subsequent save. -/
structure ConfigStore where
  config : ConfigFields
  dirty : Bool
deriving DecidableEq, Repr

/-- Modelled from the spec (section 4.5): load recomputes the checksum over
the recognized fields; on mismatch it logs a warning (second component),
resets to the compiled-in defaults and marks the store dirty, rather than
failing fast; load is total, it never raises. -/
def loadConfig (p : PersistedConfig) : ConfigStore × List (List Char) :=
  if p.checksum = computeChecksum p.fields then
    ({ config := p.fields, dirty := false }, [])
  else
    ({ config := defaultConfig, dirty := true },
     ["config checksum mismatch, using defaults".toList])

/-- Modelled from the spec: save persists the in-memory fields with a fresh
checksum and clears the dirty flag. -/
def saveConfig (s : ConfigStore) : PersistedConfig × ConfigStore :=
  ({ fields := s.config, checksum := computeChecksum s.config },
   { s with dirty := false })

/-- Modelled from the spec: the field names exposed by get. -/
inductive ConfigField where
  | servo_directions
  | startup_sound_mode
  | quiet_mode
  | slave_delay_ms
  | active_sound_module
deriving DecidableEq, Repr

/-- A configuration value: a number or a flag. -/
inductive ConfigValue where
  | natVal (n : Nat)
  | boolVal (b : Bool)
deriving DecidableEq, Repr

/-- Modelled from the spec: get returns the current in-memory value of a
field. -/
def getField (s : ConfigStore) : ConfigField → ConfigValue
  | .servo_directions => .natVal s.config.servo_directions
  | .startup_sound_mode => .natVal s.config.startup_sound_mode
  | .quiet_mode => .boolVal s.config.quiet_mode
  | .slave_delay_ms => .natVal s.config.slave_delay_ms
  | .active_sound_module => .natVal s.config.active_sound_module

/-! ## Part 7: the SITHAPI object over call sequences (test_pyodide_simple.js,
simulation mode) -/

/-- The attributes the embedded Python SITHAPI object holds: the base URL
and the session, which is None in simulation mode; no method ever assigns
another attribute. -/
structure SITHAPIObj where
  base_url : List Char
  session : Option Unit
deriving DecidableEq, Repr

/-- One panel-mutating call of the mock API. -/
inductive PanelCall where
  | openPanelCall (n : Int)
  | closePanelCall (n : Int)
  | openAllPanelsCall
  | closeAllPanelsCall
deriving DecidableEq, Repr

/-- Apply one panel-mutating method to the API object: each method body in
simulation mode computes its result dictionary and contains no assignment to
self, so the object comes back unchanged. -/
def applyPanelCall (api : SITHAPIObj) : PanelCall → ApiResult × SITHAPIObj
  | .openPanelCall n => ((open_panel n).1, api)
  | .closePanelCall n => ((close_panel n).1, api)
  | .openAllPanelsCall => (open_all_panels.1, api)
  | .closeAllPanelsCall => (close_all_panels.1, api)

/-- Apply a whole sequence of panel-mutating calls to the API object. -/
def applyPanelCalls (api : SITHAPIObj) (cs : List PanelCall) : SITHAPIObj :=
  cs.foldl (fun a c => (applyPanelCall a c).2) api

/-- SITHAPI.get_panels as a method of the object: in simulation mode the
session test is short-circuited and the constant dictionary is returned. -/
def get_panels_m (_api : SITHAPIObj) : ApiResult := get_panels

/-- SITHAPI.get_status as a method of the object: in simulation mode the
session test is short-circuited and the constant dictionary is returned. -/
def get_status_m (_api : SITHAPIObj) : ApiResult := get_status

/-! ## Part 8: helper lemmas -/

theorem map_const_closed_idem (l : List PanelState) :
    (l.map (fun _ => PanelState.closed)).map (fun _ => PanelState.closed)
      = l.map (fun _ => PanelState.closed) := by
  simp

theorem trimLog_eq_drop (l : List α) : trimLog l = l.drop (l.length - 100) := by
  induction l with
  | nil => rfl
  | cons x xs ih =>
    unfold trimLog
    by_cases h : (x :: xs).length > 100
    · rw [if_pos h, ih]
      have h1 : xs.length + 1 - 100 = (xs.length - 100) + 1 := by
        simp at h; omega
      simp [h1]
    · rw [if_neg h]
      have h1 : (x :: xs).length - 100 = 0 := by simp at h ⊢; omega
      rw [h1, List.drop_zero]

theorem trimLog_getLast? (l : List α) (h : l ≠ []) :
    (trimLog l).getLast? = l.getLast? := by
  induction l with
  | nil => exact absurd rfl h
  | cons x xs ih =>
    unfold trimLog
    by_cases hl : (x :: xs).length > 100
    · rw [if_pos hl]
      have hne : xs ≠ [] := by
        intro he; rw [he] at hl; simp at hl
      rw [ih hne]
      match xs, hne with
      | y :: ys, _ => rw [List.getLast?_cons_cons]
    · rw [if_neg hl]

theorem stepCalls_runId (rid : Nat) (step : SequenceStep) :
    ∀ tc ∈ stepCalls rid step, tc.runId = rid := by
  intro tc htc
  rw [stepCalls, List.mem_filterMap] at htc
  obtain ⟨p, -, hp⟩ := htc
  by_cases h : p.2 = NO_PULSE
  · rw [if_pos h] at hp; cases hp
  · rw [if_neg h] at hp; cases hp; rfl

theorem engineTick_attribution (s : EngineState) (r : SeqRun)
    (hr : s.active = some r) :
    ∃ r', (engineTick s).1.active = some r' ∧ r'.runId = r.runId
      ∧ (∀ tc ∈ (engineTick s).2.1, tc.runId = r.runId)
      ∧ (∀ nt ∈ (engineTick s).2.2, nt.forRun = r.runId) := by
  unfold engineTick
  simp only [hr]
  by_cases hst : r.state = RunState.running
  · rw [if_pos hst]
    split
    · exact ⟨{ r with state := RunState.stopped }, rfl, rfl,
        fun tc htc => absurd htc (List.not_mem_nil tc),
        fun nt hnt => absurd hnt (List.not_mem_nil nt)⟩
    · split
      · exact ⟨{ r with currentStepIndex := r.currentStepIndex + 1 }, rfl, rfl,
          stepCalls_runId r.runId _,
          fun nt hnt => absurd hnt (List.not_mem_nil nt)⟩
      · refine ⟨{ r with state := RunState.completed }, rfl, rfl,
          fun tc htc => absurd htc (List.not_mem_nil tc), ?_⟩
        intro nt hnt
        rw [List.mem_singleton.mp hnt]
        rfl
  · rw [if_neg hst]
    exact ⟨r, hr, rfl,
      fun tc htc => absurd htc (List.not_mem_nil tc),
      fun nt hnt => absurd hnt (List.not_mem_nil nt)⟩

theorem engineTicks_succ (n : Nat) (s : EngineState) :
    engineTicks (n + 1) s
      = ((engineTicks n (engineTick s).1).1,
         (engineTick s).2.1 ++ (engineTicks n (engineTick s).1).2.1,
         (engineTick s).2.2 ++ (engineTicks n (engineTick s).1).2.2) := rfl

theorem engineTicks_attribution (n : Nat) :
    ∀ (s : EngineState) (r : SeqRun), s.active = some r →
      (∀ tc ∈ (engineTicks n s).2.1, tc.runId = r.runId)
      ∧ (∀ nt ∈ (engineTicks n s).2.2, nt.forRun = r.runId) := by
  induction n with
  | zero =>
    intro s r _
    exact ⟨by simp [engineTicks], by simp [engineTicks]⟩
  | succ n ih =>
    intro s r hr
    obtain ⟨r', hact', hrid, hcalls, hnotifs⟩ := engineTick_attribution s r hr
    obtain ⟨ihc, ihn⟩ := ih (engineTick s).1 r' hact'
    constructor
    · intro tc htc
      rw [engineTicks_succ] at htc
      rcases List.mem_append.mp htc with h | h
      · exact hcalls tc h
      · exact (ihc tc h).trans hrid
    · intro nt hnt
      rw [engineTicks_succ] at hnt
      rcases List.mem_append.mp hnt with h | h
      · exact hnotifs nt h
      · exact (ihn nt h).trans hrid

theorem registerAll_sound (regs : List (List Char × Sequence)) :
    ∀ (cat : List (List Char × Sequence)), (∀ e ∈ cat, seqOk e.2 = true) →
      ∀ e ∈ regs.foldl (fun c r => (registerSequence c r.1 r.2).1) cat,
        seqOk e.2 = true := by
  induction regs with
  | nil => intro cat h e he; exact h e he
  | cons r rs ih =>
    intro cat h e he
    simp only [List.foldl_cons] at he
    refine ih _ ?_ e he
    intro e' he'
    unfold registerSequence at he'
    by_cases hs : seqOk r.2
    · rw [if_pos hs] at he'
      rcases List.mem_cons.mp he' with he' | he'
      · rw [he']; exact hs
      · exact h e' he'
    · rw [if_neg hs] at he'
      exact h e' he'

theorem digitVal_inv {c : Char} {v : Nat} (h : digitVal? c = some v) :
    digitChar v = c ∧ v ≤ 9 := by
  unfold digitVal? at h
  split_ifs at h with h0 h1 h2 h3 h4 h5 h6 h7 h8 h9
  · injection h with hv; subst hv; subst h0; exact ⟨by decide, by decide⟩
  · injection h with hv; subst hv; subst h1; exact ⟨by decide, by decide⟩
  · injection h with hv; subst hv; subst h2; exact ⟨by decide, by decide⟩
  · injection h with hv; subst hv; subst h3; exact ⟨by decide, by decide⟩
  · injection h with hv; subst hv; subst h4; exact ⟨by decide, by decide⟩
  · injection h with hv; subst hv; subst h5; exact ⟨by decide, by decide⟩
  · injection h with hv; subst hv; subst h6; exact ⟨by decide, by decide⟩
  · injection h with hv; subst hv; subst h7; exact ⟨by decide, by decide⟩
  · injection h with hv; subst hv; subst h8; exact ⟨by decide, by decide⟩
  · injection h with hv; subst hv; subst h9; exact ⟨by decide, by decide⟩

theorem digitVal_digitChar {v : Nat} (h : v ≤ 9) :
    digitVal? (digitChar v) = some v := by
  interval_cases v <;> decide

theorem hexVal_hexDigitChar {v : Nat} (h : v ≤ 15) :
    hexVal? (hexDigitChar v) = some v := by
  interval_cases v <;> decide

theorem decValAux_cons (acc : Nat) (c : Char) (cs : List Char) :
    decValAux acc (c :: cs)
      = match digitVal? c with
        | some v => decValAux (10 * acc + v) cs
        | none => none := rfl

theorem hexValAux_cons (acc : Nat) (c : Char) (cs : List Char) :
    hexValAux acc (c :: cs)
      = match hexVal? c with
        | some v => hexValAux (16 * acc + v) cs
        | none => none := rfl

theorem decValAux_append (s t : List Char) :
    ∀ acc, decValAux acc (s ++ t)
      = match decValAux acc s with
        | some m => decValAux m t
        | none => none := by
  induction s with
  | nil => intro acc; rfl
  | cons c cs ih =>
    intro acc
    rw [List.cons_append, decValAux_cons, decValAux_cons]
    cases digitVal? c with
    | none => rfl
    | some v => exact ih _

theorem hexValAux_append (s t : List Char) :
    ∀ acc, hexValAux acc (s ++ t)
      = match hexValAux acc s with
        | some m => hexValAux m t
        | none => none := by
  induction s with
  | nil => intro acc; rfl
  | cons c cs ih =>
    intro acc
    rw [List.cons_append, hexValAux_cons, hexValAux_cons]
    cases hexVal? c with
    | none => rfl
    | some v => exact ih _

theorem decValAux_digitsCore (fuel : Nat) :
    ∀ n, n < fuel → decValAux 0 (digitsCore 10 digitChar fuel n) = some n := by
  induction fuel with
  | zero => intro n hn; omega
  | succ fuel ih =>
    intro n hn
    unfold digitsCore
    by_cases h10 : n < 10
    · rw [if_pos h10]
      rw [decValAux_cons, digitVal_digitChar (by omega)]
      show some (10 * 0 + n) = some n
      simp only [Option.some.injEq]
      omega
    · rw [if_neg h10]
      rw [decValAux_append]
      have hrec : n / 10 < fuel := by
        have := Nat.div_lt_self (by omega : 0 < n) (by omega : 1 < 10)
        omega
      rw [ih (n / 10) hrec]
      show decValAux (n / 10) [digitChar (n % 10)] = some n
      rw [decValAux_cons, digitVal_digitChar (by omega)]
      show some (10 * (n / 10) + n % 10) = some n
      simp only [Option.some.injEq]
      omega

theorem hexValAux_digitsCore (fuel : Nat) :
    ∀ n, n < fuel → hexValAux 0 (digitsCore 16 hexDigitChar fuel n) = some n := by
  induction fuel with
  | zero => intro n hn; omega
  | succ fuel ih =>
    intro n hn
    unfold digitsCore
    by_cases h16 : n < 16
    · rw [if_pos h16]
      rw [hexValAux_cons, hexVal_hexDigitChar (by omega)]
      show some (16 * 0 + n) = some n
      simp only [Option.some.injEq]
      omega
    · rw [if_neg h16]
      rw [hexValAux_append]
      have hrec : n / 16 < fuel := by
        have := Nat.div_lt_self (by omega : 0 < n) (by omega : 1 < 16)
        omega
      rw [ih (n / 16) hrec]
      show hexValAux (n / 16) [hexDigitChar (n % 16)] = some n
      rw [hexValAux_cons, hexVal_hexDigitChar (by omega)]
      show some (16 * (n / 16) + n % 16) = some n
      simp only [Option.some.injEq]
      omega

theorem digitsCore_mem (b : Nat) (dc : Nat → Char) (hbpos : 0 < b) (fuel : Nat) :
    ∀ n ch, ch ∈ digitsCore b dc fuel n → ∃ v, v < b ∧ ch = dc v := by
  induction fuel with
  | zero => intro n ch h; cases h
  | succ fuel ih =>
    intro n ch h
    unfold digitsCore at h
    by_cases hb : n < b
    · rw [if_pos hb] at h
      rw [List.mem_singleton.mp h]
      exact ⟨n, hb, rfl⟩
    · rw [if_neg hb] at h
      rcases List.mem_append.mp h with h | h
      · exact ih (n / b) ch h
      · rw [List.mem_singleton.mp h]
        exact ⟨n % b, Nat.mod_lt n hbpos, rfl⟩

theorem digitsCore_ne_nil (b : Nat) (dc : Nat → Char) (fuel n : Nat) :
    digitsCore b dc (fuel + 1) n ≠ [] := by
  unfold digitsCore
  by_cases hb : n < b
  · rw [if_pos hb]; simp
  · rw [if_neg hb]; simp

theorem decDigits_ne_nil (n : Nat) : decDigits n ≠ [] :=
  digitsCore_ne_nil 10 digitChar n n

theorem hexDigits_ne_nil (n : Nat) : hexDigits n ≠ [] :=
  digitsCore_ne_nil 16 hexDigitChar n n

theorem parseDecimal_decDigits (n : Nat) : parseDecimal (decDigits n) = some n := by
  have h := decValAux_digitsCore (n + 1) n (by omega)
  cases hs : decDigits n with
  | nil => exact absurd hs (decDigits_ne_nil n)
  | cons c cs =>
    show decValAux 0 (c :: cs) = some n
    rw [← hs]
    exact h

theorem parseHex_hexDigits (n : Nat) : parseHex (hexDigits n) = some n := by
  have h := hexValAux_digitsCore (n + 1) n (by omega)
  cases hs : hexDigits n with
  | nil => exact absurd hs (hexDigits_ne_nil n)
  | cons c cs =>
    show hexValAux 0 (c :: cs) = some n
    rw [← hs]
    exact h

theorem decDigits_chars {n : Nat} {ch : Char} (h : ch ∈ decDigits n) :
    ∃ v, v ≤ 9 ∧ ch = digitChar v := by
  obtain ⟨v, hv, he⟩ := digitsCore_mem 10 digitChar (by omega) (n + 1) n ch h
  exact ⟨v, by omega, he⟩

theorem digitChar_ne {v : Nat} (hv : v ≤ 9) :
    digitChar v ≠ ',' ∧ digitChar v ≠ 'x' ∧ digitChar v ≠ '\'' ∧ digitChar v ≠ '"' := by
  interval_cases v <;> decide

theorem hexDigits_no_comma (n : Nat) : ',' ∉ hexDigits n := by
  intro h
  obtain ⟨v, hv, he⟩ := digitsCore_mem 16 hexDigitChar (by omega) (n + 1) n ',' h
  have : hexDigitChar v ≠ ',' := by interval_cases v <;> decide
  exact this he.symm

theorem decDigits_no_comma (n : Nat) : ',' ∉ decDigits n := by
  intro h
  obtain ⟨v, hv, he⟩ := decDigits_chars h
  exact (digitChar_ne hv).1 he.symm

theorem decodeArg_cons (c : Char) (rest : List Char) :
    decodeArg (c :: rest)
      = (if c = 'x' then (parseHex rest).map I2CArg.hexArg
        else if c = '\'' then
          match rest with
          | [ch, q] => if q = '\'' then some (I2CArg.charArg ch) else none
          | _ => none
        else if c = '"' then
          match rest.reverse with
          | q :: midRev =>
            if q = '"' ∧ '"' ∉ midRev then some (I2CArg.strArg midRev.reverse)
            else none
          | [] => none
        else (parseDecimal (c :: rest)).map I2CArg.decArg) := rfl

theorem decodeArg_decDigits (n : Nat) :
    decodeArg (decDigits n) = some (I2CArg.decArg n) := by
  cases hs : decDigits n with
  | nil => exact absurd hs (decDigits_ne_nil n)
  | cons c cs =>
    have hcm : c ∈ decDigits n := by rw [hs]; exact List.mem_cons_self c cs
    obtain ⟨v, hv, hcv⟩ := decDigits_chars hcm
    subst hcv
    rw [decodeArg_cons]
    rw [if_neg (digitChar_ne hv).2.1, if_neg (digitChar_ne hv).2.2.1,
        if_neg (digitChar_ne hv).2.2.2]
    rw [← hs, parseDecimal_decDigits]
    rfl

theorem decodeArg_hexDigits (n : Nat) :
    decodeArg ('x' :: hexDigits n) = some (I2CArg.hexArg n) := by
  show (parseHex (hexDigits n)).map I2CArg.hexArg = some (I2CArg.hexArg n)
  rw [parseHex_hexDigits]
  rfl

theorem decodeArg_restore {seg : List Char} {g : I2CArg}
    (h : decodeArg seg = some g) (hc : ',' ∉ seg) :
    ',' ∉ encodeArg g ∧ decodeArg (encodeArg g) = some g := by
  cases seg with
  | nil => simp [decodeArg] at h
  | cons c rest =>
    rw [decodeArg_cons] at h
    by_cases hx : c = 'x'
    · rw [if_pos hx] at h
      cases hp : parseHex rest with
      | none => rw [hp] at h; cases h
      | some m =>
        rw [hp] at h
        have hg : I2CArg.hexArg m = g := Option.some.inj h
        subst hg
        refine ⟨?_, decodeArg_hexDigits m⟩
        intro hmem
        rcases List.mem_cons.mp hmem with h1 | h1
        · exact absurd h1 (by decide)
        · exact absurd h1 (hexDigits_no_comma m)
    · rw [if_neg hx] at h
      by_cases hq : c = '\''
      · rw [if_pos hq] at h
        cases rest with
        | nil => cases h
        | cons ch rest1 =>
          cases rest1 with
          | nil => cases h
          | cons q rest2 =>
            cases rest2 with
            | cons e rest3 => cases h
            | nil =>
              have h2 : (if q = '\'' then some (I2CArg.charArg ch) else none)
                  = some g := h
              by_cases hq2 : q = '\''
              · rw [if_pos hq2] at h2
                have hg : I2CArg.charArg ch = g := Option.some.inj h2
                subst hg
                subst hq
                subst hq2
                exact ⟨hc, rfl⟩
              · rw [if_neg hq2] at h2; cases h2
      · rw [if_neg hq] at h
        by_cases hds : c = '"'
        · rw [if_pos hds] at h
          cases hrev : rest.reverse with
          | nil => rw [hrev] at h; cases h
          | cons q midRev =>
            rw [hrev] at h
            have h2 : (if q = '"' ∧ '"' ∉ midRev
                then some (I2CArg.strArg midRev.reverse) else none) = some g := h
            by_cases hcond : q = '"' ∧ '"' ∉ midRev
            · rw [if_pos hcond] at h2
              have hg : I2CArg.strArg midRev.reverse = g := Option.some.inj h2
              subst hg
              obtain ⟨hq3, hnq⟩ := hcond
              subst hq3
              subst hds
              have hrest : rest = midRev.reverse ++ ['"'] := by
                have h2 := congrArg List.reverse hrev
                simpa using h2
              constructor
              · show ',' ∉ '"' :: (midRev.reverse ++ ['"'])
                rw [hrest] at hc
                exact hc
              · show decodeArg ('"' :: (midRev.reverse ++ ['"']))
                    = some (I2CArg.strArg midRev.reverse)
                rw [decodeArg_cons]
                rw [if_neg (by decide : ¬(('"' : Char) = 'x')),
                    if_neg (by decide : ¬(('"' : Char) = '\'')),
                    if_pos (rfl : ('"' : Char) = '"')]
                have hr2 : (midRev.reverse ++ ['"']).reverse = '"' :: midRev := by simp
                rw [hr2]
                show (if ('"' : Char) = '"' ∧ '"' ∉ midRev
                      then some (I2CArg.strArg midRev.reverse) else none)
                    = some (I2CArg.strArg midRev.reverse)
                rw [if_pos ⟨rfl, hnq⟩]
            · rw [if_neg hcond] at h2; cases h2
        · rw [if_neg hds] at h
          cases hp : parseDecimal (c :: rest) with
          | none => rw [hp] at h; cases h
          | some m =>
            rw [hp] at h
            have hg : I2CArg.decArg m = g := Option.some.inj h
            subst hg
            refine ⟨decDigits_no_comma m, decodeArg_decDigits m⟩

theorem splitCommas_cons (c : Char) (rest : List Char) :
    splitCommas (c :: rest)
      = (if c = ',' then [] :: splitCommas rest
        else match splitCommas rest with
          | seg :: segs => (c :: seg) :: segs
          | [] => [[c]]) := rfl

theorem splitCommas_ne_nil (l : List Char) : splitCommas l ≠ [] := by
  cases l with
  | nil => simp [splitCommas]
  | cons c rest =>
    rw [splitCommas_cons]
    by_cases hc : c = ','
    · rw [if_pos hc]; simp
    · rw [if_neg hc]
      cases hsp : splitCommas rest with
      | nil => simp
      | cons seg segs => simp

theorem splitCommas_no_comma (l : List Char) :
    ∀ seg ∈ splitCommas l, ',' ∉ seg := by
  induction l with
  | nil =>
    intro seg hseg
    rw [List.mem_singleton.mp hseg]
    simp
  | cons c rest ih =>
    intro seg hseg
    rw [splitCommas_cons] at hseg
    by_cases hc : c = ','
    · rw [if_pos hc] at hseg
      rcases List.mem_cons.mp hseg with h | h
      · rw [h]; simp
      · exact ih seg h
    · rw [if_neg hc] at hseg
      cases hsp : splitCommas rest with
      | nil => exact absurd hsp (splitCommas_ne_nil rest)
      | cons seg0 segs =>
        rw [hsp] at hseg
        rcases List.mem_cons.mp hseg with h | h
        · rw [h]
          intro hmem
          rcases List.mem_cons.mp hmem with h1 | h1
          · exact hc h1.symm
          · exact ih seg0 (by rw [hsp]; exact List.mem_cons_self _ _) h1
        · exact ih seg (by rw [hsp]; exact List.mem_cons_of_mem _ h)

theorem splitCommas_of_no_comma {s : List Char} (h : ',' ∉ s) :
    splitCommas s = [s] := by
  induction s with
  | nil => rfl
  | cons c rest ih =>
    have hc : c ≠ ',' := fun hce => h (by rw [← hce]; exact List.mem_cons_self c rest)
    rw [splitCommas_cons, if_neg hc, ih (fun hm => h (List.mem_cons_of_mem c hm))]

theorem splitCommas_append {s : List Char} (h : ',' ∉ s) (t : List Char) :
    splitCommas (s ++ ',' :: t) = s :: splitCommas t := by
  induction s with
  | nil =>
    show splitCommas (',' :: t) = [] :: splitCommas t
    rw [splitCommas_cons, if_pos rfl]
  | cons c rest ih =>
    have hc : c ≠ ',' := fun hce => h (by rw [← hce]; exact List.mem_cons_self c rest)
    have hrest : ',' ∉ rest := fun hm => h (List.mem_cons_of_mem c hm)
    rw [List.cons_append, splitCommas_cons, if_neg hc, ih hrest]

theorem mapMOpt_cons (f : α → Option β) (a : α) (as : List α) :
    mapMOpt f (a :: as)
      = match f a, mapMOpt f as with
        | some b, some bs => some (b :: bs)
        | _, _ => none := rfl

theorem mapMOpt_restore :
    ∀ (segs : List (List Char)) (args : List I2CArg),
      mapMOpt decodeArg segs = some args →
      (∀ seg ∈ segs, ',' ∉ seg) →
      (∀ g ∈ args, ',' ∉ encodeArg g)
      ∧ mapMOpt decodeArg (args.map encodeArg) = some args := by
  intro segs
  induction segs with
  | nil =>
    intro args h _
    have hargs : ([] : List I2CArg) = args := Option.some.inj h
    subst hargs
    exact ⟨fun g hg => absurd hg (List.not_mem_nil g), rfl⟩
  | cons seg segs ih =>
    intro args h hnc
    rw [mapMOpt_cons] at h
    cases hd : decodeArg seg with
    | none => rw [hd] at h; cases h
    | some g =>
      rw [hd] at h
      cases ht : mapMOpt decodeArg segs with
      | none => rw [ht] at h; cases h
      | some gs =>
        rw [ht] at h
        have hargs : g :: gs = args := Option.some.inj h
        subst hargs
        obtain ⟨hg1, hg2⟩ := decodeArg_restore hd (hnc seg (List.mem_cons_self _ _))
        obtain ⟨ih1, ih2⟩ := ih gs ht (fun s hs => hnc s (List.mem_cons_of_mem _ hs))
        constructor
        · intro g' hg'
          rcases List.mem_cons.mp hg' with h1 | h1
          · rw [h1]; exact hg1
          · exact ih1 g' h1
        · rw [List.map_cons, mapMOpt_cons, hg2, ih2]

theorem splitCommas_encodeArgs (args : List I2CArg) :
    ∀ (s : List Char), ',' ∉ s → (∀ g ∈ args, ',' ∉ encodeArg g) →
      splitCommas (s ++ encodeArgsTail args) = s :: args.map encodeArg := by
  induction args with
  | nil =>
    intro s hs _
    show splitCommas (s ++ []) = [s]
    rw [List.append_nil]
    exact splitCommas_of_no_comma hs
  | cons g gs ih =>
    intro s hs hargs
    show splitCommas (s ++ (',' :: (encodeArg g ++ encodeArgsTail gs)))
        = s :: (g :: gs).map encodeArg
    rw [splitCommas_append hs,
        ih (encodeArg g) (hargs g (List.mem_cons_self _ _))
          (fun g' h' => hargs g' (List.mem_cons_of_mem _ h'))]
    rfl

theorem decodeI2C_eval (body addrSeg : List Char) (argSegs : List (List Char))
    (a : Nat) (args : List I2CArg)
    (hsp : splitCommas body = addrSeg :: argSegs)
    (hpa : parseDecimal addrSeg = some a)
    (hm : mapMOpt decodeArg argSegs = some args) :
    decodeI2C body = .ok (.i2cCmd a args) := by
  unfold decodeI2C
  rw [hsp]
  split
  · rename_i heq
    cases heq
  · rename_i addrSeg2 argSegs2 heq
    injection heq with h1 h2
    subst h1
    subst h2
    split
    · rename_i heq2
      rw [hpa] at heq2
      cases heq2
    · rename_i a2 heq2
      rw [hpa] at heq2
      have ha2 : a = a2 := Option.some.inj heq2
      subst ha2
      split
      · rename_i heq3
        rw [hm] at heq3
        cases heq3
      · rename_i args2 heq3
        rw [hm] at heq3
        have harg : args = args2 := Option.some.inj heq3
        subst harg
        rfl

theorem decodeI2C_restore {body : List Char} {c : Command}
    (h : decodeI2C body = .ok c) :
    decode (encode c) = .ok c ∧ c.family = Family.i2c := by
  unfold decodeI2C at h
  split at h
  · cases h
  · rename_i addrSeg argSegs hsp
    split at h
    · cases h
    · rename_i a hpa
      split at h
      · cases h
      · rename_i args hm
        have hc : Command.i2cCmd a args = c := Except.ok.inj h
        subst hc
        have hsegs : ∀ seg ∈ argSegs, ',' ∉ seg := fun seg hs =>
          splitCommas_no_comma body seg (by rw [hsp]; exact List.mem_cons_of_mem _ hs)
        obtain ⟨hargsnc, hre⟩ := mapMOpt_restore argSegs args hm hsegs
        refine ⟨?_, rfl⟩
        show decodeI2C (decDigits a ++ encodeArgsTail args) = .ok (.i2cCmd a args)
        exact decodeI2C_eval _ _ _ a args
          (splitCommas_encodeArgs args (decDigits a) (decDigits_no_comma a) hargsnc)
          (parseDecimal_decDigits a) hre

theorem panelOpOfChars_inv {a b : Char} {op : PanelOp}
    (h : panelOpOfChars a b = some op) : panelOpChars op = [a, b] := by
  unfold panelOpOfChars at h
  split_ifs at h with h1 h2 h3 h4 h5 h6
  · injection h with h0; subst h0; rcases h1 with ⟨rfl, rfl⟩; rfl
  · injection h with h0; subst h0; rcases h2 with ⟨rfl, rfl⟩; rfl
  · injection h with h0; subst h0; rcases h3 with ⟨rfl, rfl⟩; rfl
  · injection h with h0; subst h0; rcases h4 with ⟨rfl, rfl⟩; rfl
  · injection h with h0; subst h0; rcases h5 with ⟨rfl, rfl⟩; rfl
  · injection h with h0; subst h0; rcases h6 with ⟨rfl, rfl⟩; rfl

theorem seqNameFallback_inv {op : PanelOp} {rest : List Char} {c : Command}
    (h : seqNameFallback op rest = .ok c) :
    op = PanelOp.SE ∧ c = Command.panelCmd PanelOp.SE (PanelTarget.name rest) := by
  unfold seqNameFallback at h
  split_ifs at h with h1
  exact ⟨h1.1, (Except.ok.inj h).symm⟩

theorem decodePanel_cons (a b : Char) (rest : List Char) :
    decodePanel (a :: b :: rest)
      = (match panelOpOfChars a b with
        | some op =>
          match rest with
          | [d1, d2] =>
            match digitVal? d1, digitVal? d2 with
            | some v1, some v2 =>
              if 10 * v1 + v2 = 0 then .ok (.panelCmd op PanelTarget.all)
              else if 10 * v1 + v2 ≤ 16 then
                .ok (.panelCmd op (.num (10 * v1 + v2)))
              else .error .argumentError
            | _, _ => seqNameFallback op rest
          | _ => seqNameFallback op rest
        | none => .error .unknownOpcode) := rfl

theorem fallback_encode {op : PanelOp} {a b : Char} {rest : List Char} {c : Command}
    (hab : panelOpChars op = [a, b])
    (h : seqNameFallback op rest = .ok c) :
    encode c = ':' :: a :: b :: rest ∧ c.family = Family.panel := by
  obtain ⟨hop, hcc⟩ := seqNameFallback_inv h
  subst hop
  subst hcc
  refine ⟨?_, rfl⟩
  show ':' :: (panelOpChars PanelOp.SE ++ rest) = ':' :: a :: b :: rest
  rw [hab]
  rfl

theorem decodePanel_encode {body : List Char} {c : Command}
    (h : decodePanel body = .ok c) :
    encode c = ':' :: body ∧ c.family = Family.panel := by
  cases body with
  | nil => simp [decodePanel] at h
  | cons a body1 =>
    cases body1 with
    | nil => simp [decodePanel] at h
    | cons b rest =>
      rw [decodePanel_cons] at h
      cases hop : panelOpOfChars a b with
      | none => rw [hop] at h; cases h
      | some op =>
        rw [hop] at h
        have hab := panelOpOfChars_inv hop
        match rest, h with
        | [], h => exact fallback_encode hab h
        | [d1], h => exact fallback_encode hab h
        | d1 :: d2 :: e :: more, h => exact fallback_encode hab h
        | [d1, d2], h =>
          have hm : (match digitVal? d1, digitVal? d2 with
                | some v1, some v2 =>
                  if 10 * v1 + v2 = 0 then
                    Except.ok (Command.panelCmd op PanelTarget.all)
                  else if 10 * v1 + v2 ≤ 16 then
                    Except.ok (Command.panelCmd op (PanelTarget.num (10 * v1 + v2)))
                  else Except.error DecodeError.argumentError
                | _, _ => seqNameFallback op [d1, d2])
              = Except.ok c := h
          cases hd1 : digitVal? d1 with
          | none =>
            rw [hd1] at hm
            exact fallback_encode hab hm
          | some v1 =>
            rw [hd1] at hm
            cases hd2 : digitVal? d2 with
            | none =>
              rw [hd2] at hm
              exact fallback_encode hab hm
            | some v2 =>
              rw [hd2] at hm
              have h2 : (if 10 * v1 + v2 = 0 then
                      Except.ok (Command.panelCmd op PanelTarget.all)
                    else if 10 * v1 + v2 ≤ 16 then
                      Except.ok (Command.panelCmd op (PanelTarget.num (10 * v1 + v2)))
                    else Except.error DecodeError.argumentError)
                  = Except.ok c := hm
              obtain ⟨hc1, hv1⟩ := digitVal_inv hd1
              obtain ⟨hc2, hv2⟩ := digitVal_inv hd2
              split_ifs at h2 with hz hle
              · have hcc : Command.panelCmd op PanelTarget.all = c := Except.ok.inj h2
                subst hcc
                refine ⟨?_, rfl⟩
                show ':' :: (panelOpChars op ++ ['0', '0']) = ':' :: a :: b :: [d1, d2]
                rw [hab]
                have hd1z : d1 = '0' := by
                  rw [← hc1]
                  have hv : v1 = 0 := by omega
                  rw [hv]
                  rfl
                have hd2z : d2 = '0' := by
                  rw [← hc2]
                  have hv : v2 = 0 := by omega
                  rw [hv]
                  rfl
                rw [hd1z, hd2z]
                rfl
              · have hcc : Command.panelCmd op (PanelTarget.num (10 * v1 + v2)) = c :=
                  Except.ok.inj h2
                subst hcc
                refine ⟨?_, rfl⟩
                show ':' :: (panelOpChars op
                      ++ [digitChar ((10 * v1 + v2) / 10), digitChar ((10 * v1 + v2) % 10)])
                    = ':' :: a :: b :: [d1, d2]
                rw [hab]
                have e1 : (10 * v1 + v2) / 10 = v1 := by omega
                have e2 : (10 * v1 + v2) % 10 = v2 := by omega
                rw [e1, e2, hc1, hc2]
                rfl

theorem decode_cons (c0 : Char) (body : List Char) :
    decode (c0 :: body)
      = (if c0 = ':' then decodePanel body
        else if c0 = '&' then decodeI2C body
        else if c0 = '*' then .ok (.rawCmd Family.holoProjector body)
        else if c0 = '@' then .ok (.rawCmd Family.display body)
        else if c0 = '$' then .ok (.rawCmd Family.sound body)
        else if c0 = '#' then .ok (.rawCmd Family.setup body)
        else if c0 = '!' then .ok (.rawCmd Family.altSound body)
        else if c0 = '%' then .ok (.rawCmd Family.altHP body)
        else .error .malformedCommand) := rfl

/-! ## Part 9: the claims -/

/-- C1: for every panel target t in [1,16], decoding the frame colon-OP
plus the two-digit zero-padded t yields a Panel-family OP command with
numeric target t, and the simulator opens exactly panel t; for t = 0 the
target decodes to the distinguished All target, never the literal actuator
0, and every panel is affected. -/
theorem claim_C1 (t : Nat) (h1 : 1 ≤ t) (h2 : t ≤ 16) (panels : List PanelState) :
    decode ([':', 'O', 'P'] ++ format02d t)
        = Except.ok (Command.panelCmd PanelOp.OP (PanelTarget.num t))
    ∧ updatePanelsFromCommand ([':', 'O', 'P'] ++ format02d t) panels
        = panels.set (t - 1) PanelState.opened
    ∧ decode [':', 'O', 'P', '0', '0']
        = Except.ok (Command.panelCmd PanelOp.OP PanelTarget.all)
    ∧ updatePanelsFromCommand [':', 'O', 'P', '0', '0'] panels
        = panels.map (fun _ => PanelState.opened) := by
  interval_cases t <;> exact ⟨by decide, rfl, by decide, rfl⟩

/-- Witness for claim_C1 at t = 3 over a 16-panel dome. -/
theorem claim_C1_witness :
    decode ([':', 'O', 'P'] ++ format02d 3)
        = Except.ok (Command.panelCmd PanelOp.OP (PanelTarget.num 3))
    ∧ updatePanelsFromCommand ([':', 'O', 'P'] ++ format02d 3)
        (List.replicate 16 PanelState.closed)
        = (List.replicate 16 PanelState.closed).set (3 - 1) PanelState.opened
    ∧ decode [':', 'O', 'P', '0', '0']
        = Except.ok (Command.panelCmd PanelOp.OP PanelTarget.all)
    ∧ updatePanelsFromCommand [':', 'O', 'P', '0', '0']
        (List.replicate 16 PanelState.closed)
        = (List.replicate 16 PanelState.closed).map (fun _ => PanelState.opened) :=
  claim_C1 3 (by decide) (by decide) (List.replicate 16 PanelState.closed)

/-- C2: for every panel number outside [0,16], open_panel returns the soft
failure result (success false with an error message) and never issues a
command; for a two-digit out-of-range target the decoder fails with
ArgumentError. -/
theorem claim_C2 (t : Int) (h : t < 0 ∨ 16 < t) :
    open_panel t
        = ({ success := false,
             error := some ("Panel number must be 1-16".toList) }, [])
    ∧ (17 ≤ t → t ≤ 99 →
        decode ([':', 'O', 'P'] ++ format02d t.toNat) = Except.error DecodeError.argumentError) := by
  constructor
  · unfold open_panel
    rw [if_neg (by omega : ¬(1 ≤ t ∧ t ≤ 16))]
  · intro h17 h99
    have hb1 : 17 ≤ t.toNat := by omega
    have hb2 : t.toNat ≤ 99 := by omega
    set n := t.toNat with hn
    interval_cases n <;> decide

/-- Witness for claim_C2 at t = 17. -/
theorem claim_C2_witness :
    open_panel 17
        = ({ success := false,
             error := some ("Panel number must be 1-16".toList) }, [])
    ∧ ((17 : Int) ≤ 17 → (17 : Int) ≤ 99 →
        decode ([':', 'O', 'P'] ++ format02d (17 : Int).toNat)
          = Except.error DecodeError.argumentError) :=
  claim_C2 17 (Or.inr (by decide))

/-- C3: dispatching the close-all frame colon-CL00 puts every panel into
the closed state, dispatching it twice in a row leaves that logical state
unchanged, and close_all_panels returns a success result each time it is
called (it is stateless, so both dispatches return the same success
value). -/
theorem claim_C3 (panels : List PanelState) :
    updatePanelsFromCommand [':', 'C', 'L', '0', '0'] panels
        = panels.map (fun _ => PanelState.closed)
    ∧ updatePanelsFromCommand [':', 'C', 'L', '0', '0']
        (updatePanelsFromCommand [':', 'C', 'L', '0', '0'] panels)
        = updatePanelsFromCommand [':', 'C', 'L', '0', '0'] panels
    ∧ close_all_panels.1.success = true
    ∧ close_all_panels.2 = [[':', 'C', 'L', '0', '0']] :=
  ⟨rfl, map_const_closed_idem panels, rfl, rfl⟩

/-- C4: round-trip: every frame the decoder accepts re-encodes
byte-for-byte, except I2C frames, whose canonical re-encoding still decodes
to the very same command (I2C argument type normalization, e.g. hex case);
in particular the OP frame of every panel number in [1,16] is reproduced
exactly by the encoder. -/
theorem claim_C4 (f : List Char) (c : Command) (h : decode f = .ok c) :
    decode (encode c) = .ok c
    ∧ (c.family ≠ Family.i2c → encode c = f)
    ∧ (∀ t, 1 ≤ t → t ≤ 16 →
        encode (Command.panelCmd PanelOp.OP (PanelTarget.num t))
          = [':', 'O', 'P'] ++ format02d t) := by
  have hpanel : ∀ t, 1 ≤ t → t ≤ 16 →
      encode (Command.panelCmd PanelOp.OP (PanelTarget.num t))
        = [':', 'O', 'P'] ++ format02d t := by
    intro t h1 h2
    interval_cases t <;> decide
  cases f with
  | nil => simp [decode] at h
  | cons c0 body =>
    rw [decode_cons] at h
    split_ifs at h with h1 h2 h3 h4 h5 h6 h7 h8
    · obtain ⟨henc, hfam⟩ := decodePanel_encode h
      subst h1
      refine ⟨?_, fun _ => henc, hpanel⟩
      rw [henc]
      show decodePanel body = .ok c
      exact h
    · obtain ⟨hdec, hfam⟩ := decodeI2C_restore h
      subst h2
      exact ⟨hdec, fun hne => absurd hfam hne, hpanel⟩
    · have hc := Except.ok.inj h
      subst hc
      subst h3
      exact ⟨rfl, fun _ => rfl, hpanel⟩
    · have hc := Except.ok.inj h
      subst hc
      subst h4
      exact ⟨rfl, fun _ => rfl, hpanel⟩
    · have hc := Except.ok.inj h
      subst hc
      subst h5
      exact ⟨rfl, fun _ => rfl, hpanel⟩
    · have hc := Except.ok.inj h
      subst hc
      subst h6
      exact ⟨rfl, fun _ => rfl, hpanel⟩
    · have hc := Except.ok.inj h
      subst hc
      subst h7
      exact ⟨rfl, fun _ => rfl, hpanel⟩
    · have hc := Except.ok.inj h
      subst hc
      subst h8
      exact ⟨rfl, fun _ => rfl, hpanel⟩

/-- Witness for claim_C4 at the I2C frame with the upper-case hex argument
x0A, the normalization case the claim excepts. -/
theorem claim_C4_witness :
    decode ['&', '4', '2', ',', 'x', '0', 'A'] = .ok (.i2cCmd 42 [.hexArg 10])
    ∧ decode (encode (Command.i2cCmd 42 [I2CArg.hexArg 10]))
        = .ok (.i2cCmd 42 [.hexArg 10])
    ∧ ((Command.i2cCmd 42 [I2CArg.hexArg 10]).family ≠ Family.i2c →
        encode (Command.i2cCmd 42 [I2CArg.hexArg 10])
          = ['&', '4', '2', ',', 'x', '0', 'A'])
    ∧ (∀ t, 1 ≤ t → t ≤ 16 →
        encode (Command.panelCmd PanelOp.OP (PanelTarget.num t))
          = [':', 'O', 'P'] ++ format02d t) :=
  ⟨by decide,
   (claim_C4 ['&', '4', '2', ',', 'x', '0', 'A'] (.i2cCmd 42 [.hexArg 10]) (by decide)).1,
   (claim_C4 ['&', '4', '2', ',', 'x', '0', 'A'] (.i2cCmd 42 [.hexArg 10]) (by decide)).2.1,
   (claim_C4 ['&', '4', '2', ',', 'x', '0', 'A'] (.i2cCmd 42 [.hexArg 10]) (by decide)).2.2⟩

/-- C5: processing the byte stream of the frames :OP01, :CL01, :SE02 in
order issues servos.set_position(1, OPEN), then servos.set_position(1,
CLOSED), then starts builtin sequence id 2, which the catalogue maps to the
Wave sequence, whose first step sets every panel channel to the CLOSED
position. -/
theorem claim_C5 :
    processBytes (":OP01\r:CL01\r:SE02\r".toList)
      = [ DispatchAction.hal (HALCall.setPosition 1 OPEN_POS),
          DispatchAction.hal (HALCall.setPosition 1 CLOSED_POS),
          DispatchAction.seqStartId 2 ]
    ∧ builtinSequences 2 = some waveSequence
    ∧ waveSequence.steps.head? = some
        { time_ms := 200,
          servo_positions := List.replicate 12 CLOSED_POS,
          description := "Close all panels".toList } :=
  ⟨by decide, by decide, by decide⟩

/-- C6: supersession: starting sequence B while run A is Running emits
exactly one completion notification, with reason Superseded, for A; the new
run begins at step 0 in the Running state under a fresh run id (last start
wins); afterwards no tick ever emits a HAL call or a notification
attributed to the superseded run. -/
theorem claim_C6 (s : EngineState) (a : SeqRun) (b : Nat)
    (ha : s.active = some a) (harun : a.state = RunState.running)
    (hfresh : a.runId < s.nextRunId) (hb : (s.seqTable b).isSome) :
    (startSequence b s).2
        = [SeqNotification.completion a.runId CompletionReason.superseded]
    ∧ (startSequence b s).1.active = some ⟨s.nextRunId, b, 0, RunState.running⟩
    ∧ ∀ n, (∀ tc ∈ (engineTicks n (startSequence b s).1).2.1, tc.runId ≠ a.runId)
         ∧ (∀ nt ∈ (engineTicks n (startSequence b s).1).2.2, nt.forRun ≠ a.runId) := by
  obtain ⟨sq, hsq⟩ := Option.isSome_iff_exists.mp hb
  have hstart : startSequence b s
      = ({ s with nextRunId := s.nextRunId + 1,
                  active := some ⟨s.nextRunId, b, 0, RunState.running⟩ },
         [SeqNotification.completion a.runId CompletionReason.superseded]) := by
    unfold startSequence
    simp only [hsq, ha]
    rw [if_pos (Or.inl harun)]
  have hact : (startSequence b s).1.active
      = some ⟨s.nextRunId, b, 0, RunState.running⟩ := by rw [hstart]
  refine ⟨by rw [hstart], hact, ?_⟩
  intro n
  obtain ⟨hc, hn⟩ := engineTicks_attribution n (startSequence b s).1
    ⟨s.nextRunId, b, 0, RunState.running⟩ hact
  constructor
  · intro tc htc
    rw [hc tc htc]
    show s.nextRunId ≠ a.runId
    omega
  · intro nt hnt
    rw [hn nt hnt]
    show s.nextRunId ≠ a.runId
    omega

/-- Witness for claim_C6: run 0 is superseded by starting builtin sequence
2 on a concrete engine state. -/
theorem claim_C6_witness :
    (startSequence 2 ⟨builtinSequences, 1, some ⟨0, 2, 1, RunState.running⟩⟩).2
        = [SeqNotification.completion 0 CompletionReason.superseded]
    ∧ (startSequence 2 ⟨builtinSequences, 1, some ⟨0, 2, 1, RunState.running⟩⟩).1.active
        = some ⟨1, 2, 0, RunState.running⟩
    ∧ ∀ n, (∀ tc ∈ (engineTicks n (startSequence 2
              ⟨builtinSequences, 1, some ⟨0, 2, 1, RunState.running⟩⟩).1).2.1,
            tc.runId ≠ 0)
         ∧ (∀ nt ∈ (engineTicks n (startSequence 2
              ⟨builtinSequences, 1, some ⟨0, 2, 1, RunState.running⟩⟩).1).2.2,
            nt.forRun ≠ 0) :=
  claim_C6 ⟨builtinSequences, 1, some ⟨0, 2, 1, RunState.running⟩⟩
    ⟨0, 2, 1, RunState.running⟩ 2 rfl rfl (by decide) rfl

/-- C7: every actuator position value of every step of every sequence the
engine can play (builtin or registered, the Wave and Scream sequences
included) lies in the pulse range [500, 2500] or equals one of the defined
sentinels. -/
theorem claim_C7 (regs : List (List Char × Sequence)) (sq : Sequence)
    (h : playable (registerAll regs) sq) :
    seqOk sq = true ∧ seqOk waveSequence = true ∧ seqOk screamSequence = true := by
  refine ⟨?_, by decide, by decide⟩
  rcases h with ⟨id, hid⟩ | ⟨nm, hnm⟩
  · unfold builtinSequences at hid
    by_cases h2 : id = 2
    · rw [if_pos h2] at hid
      cases hid
      decide
    · rw [if_neg h2] at hid
      cases hid
  · unfold registerAll at hnm
    exact registerAll_sound regs [] (by intro e he; cases he) (nm, sq) hnm

/-- Witness for claim_C7 on the registered Scream sequence and the builtin
Wave sequence. -/
theorem claim_C7_witness :
    seqOk screamSequence = true ∧ seqOk waveSequence = true :=
  ⟨(claim_C7 [("scream".toList, screamSequence)] screamSequence
      (Or.inr ⟨"scream".toList, by decide⟩)).1,
   (claim_C7 [] waveSequence (Or.inl ⟨2, by decide⟩)).2.1⟩

/-- C8: a persisted configuration whose stored checksum does not match the
checksum recomputed over its fields loads, without raising, into the
compiled-in defaults with the dirty flag set; get of slave_delay_ms then
returns the documented default, and the next save writes fresh
checksum-consistent state. -/
theorem claim_C8 (p : PersistedConfig) (h : p.checksum ≠ computeChecksum p.fields) :
    (loadConfig p).1 = { config := defaultConfig, dirty := true }
    ∧ getField (loadConfig p).1 ConfigField.slave_delay_ms
        = ConfigValue.natVal defaultConfig.slave_delay_ms
    ∧ (saveConfig (loadConfig p).1).1
        = { fields := defaultConfig, checksum := computeChecksum defaultConfig } := by
  have hl : loadConfig p
      = ({ config := defaultConfig, dirty := true },
         ["config checksum mismatch, using defaults".toList]) := by
    unfold loadConfig
    rw [if_neg h]
  exact ⟨by rw [hl], by rw [hl]; rfl, by rw [hl]; rfl⟩

/-- Witness for claim_C8 on a persisted configuration whose checksum byte
is off by one. -/
theorem claim_C8_witness :
    (loadConfig ⟨defaultConfig, 1⟩).1 = { config := defaultConfig, dirty := true }
    ∧ getField (loadConfig ⟨defaultConfig, 1⟩).1 ConfigField.slave_delay_ms
        = ConfigValue.natVal defaultConfig.slave_delay_ms
    ∧ (saveConfig (loadConfig ⟨defaultConfig, 1⟩).1).1
        = { fields := defaultConfig, checksum := computeChecksum defaultConfig } :=
  claim_C8 ⟨defaultConfig, 1⟩ (by decide)

/-- C9: after every addLogEntry the log holds at most 100 entries and the
most recent entry is always retained at the end; appending to a log that
already holds 100 entries removes the oldest entry first. -/
theorem claim_C9 (log : List α) (entry : α) :
    (addLogEntry log entry).length ≤ 100
    ∧ (addLogEntry log entry).getLast? = some entry
    ∧ (log.length = 100 → addLogEntry log entry = log.tail ++ [entry]) := by
  refine ⟨?_, ?_, ?_⟩
  · rw [addLogEntry, trimLog_eq_drop]
    simp only [List.length_drop, List.length_append, List.length_singleton]
    omega
  · rw [addLogEntry, trimLog_getLast? _ (by simp), List.getLast?_concat]
  · intro h100
    rw [addLogEntry, trimLog_eq_drop]
    have hlen : (log ++ [entry]).length - 100 = 1 := by simp [h100]
    rw [hlen, List.drop_append_of_le_length (by omega), List.drop_one]

/-- Witness for claim_C9 on a log already holding 100 entries. -/
theorem claim_C9_witness :
    (addLogEntry (List.replicate 100 (7 : Nat)) 3).length ≤ 100
    ∧ addLogEntry (List.replicate 100 (7 : Nat)) 3
        = (List.replicate 100 (7 : Nat)).tail ++ [3] :=
  ⟨(claim_C9 (List.replicate 100 7) 3).1,
   (claim_C9 (List.replicate 100 7) 3).2.2 (by simp)⟩

/-- C10: statelessness of the simulated API: any sequence of panel-mutating
calls leaves the API object unchanged, get_panels always returns the
constant list of exactly 16 entries all false, and get_status always
reports panels all_closed. -/
theorem claim_C10 (api : SITHAPIObj) (cs : List PanelCall) :
    applyPanelCalls api cs = api
    ∧ get_panels_m (applyPanelCalls api cs)
        = { success := true,
            panels := some (PanelsVal.listVal (List.replicate 16 false)) }
    ∧ (List.replicate 16 false).length = 16
    ∧ (List.replicate 16 false).all (fun b => !b) = true
    ∧ get_status_m (applyPanelCalls api cs)
        = { success := true,
            status := some ("simulation_mode".toList),
            panels := some (PanelsVal.strVal ("all_closed".toList)) } := by
  have h : applyPanelCalls api cs = api := by
    induction cs generalizing api with
    | nil => rfl
    | cons c cs ih => cases c <;> simpa [applyPanelCalls, applyPanelCall] using ih _
  exact ⟨h, rfl, by decide, by decide, rfl⟩
